import Mathlib

/-!
Verification of the PID-splitting step (`pisa/pid/PID.py`).

The core function `get_pid_maps` takes a dictionary of reconstructed
event-rate maps (one 2-D histogram per flavour category, plus a free-form
`params` entry) and a PID weight table, and splits the events into a
`trck` and a `cscd` map by weighted accumulation over the four fixed
categories `nue_cc`, `numu_cc`, `nutau_cc`, `nuall_nc`.

Event-rate maps are embedded as `List (List ℚ)` (row-major 2-D arrays of
rationals standing for the floating-point values), dictionaries as
association lists, and numpy's elementwise operations as `List.zipWith` /
`List.map`.  Failures (binning mismatch, missing dictionary key) are
surfaced through `Except`.

Helpers of the repository that are imported by `PID.py` but whose sources
are not available (`pisa.utils.utils.get_binning` / `check_binning`,
`pisa.utils.proc.get_params` / `add_params`, `pisa.pid.PIDService`) are
modelled from the specification; each such definition carries a doc
comment saying so.
-/

deriving instance DecidableEq for Except

namespace Pisa

/-- A 2-D event-rate histogram: rows indexed by energy bin, columns by
cosine-zenith bin. -/
abbrev Grid := List (List ℚ)

/-- One entry of the reco-events dictionary: a 2-D map together with its
energy and cosine-zenith bin edges (`{'map':…, 'ebins':…, 'czbins':…}`). -/
structure BinnedMap where
  map : Grid
  ebins : List ℚ
  czbins : List ℚ
deriving DecidableEq, Repr

/-- A PID weight: numpy broadcasting in `event_map*pid_dict[flav]['trck']`
admits either a scalar weight or a full per-bin 2-D weight array. -/
inductive Weight where
  | scalar (c : ℚ)
  | grid (g : Grid)
deriving DecidableEq, Repr

/-- The track/cascade weight pair of one category in the PID dictionary
(`pid_dict[flav]['trck']`, `pid_dict[flav]['cscd']`). -/
structure PIDEntry where
  trck : Weight
  cscd : Weight
deriving DecidableEq, Repr

/-- The free-form analysis parameters, an opaque key→value mapping carried
through the pipeline. -/
abbrev Params := List (String × Int)

/-- The `reco_events` input dictionary: category label → binned map,
plus the `'params'` entry. -/
structure RecoEvents where
  maps : List (String × BinnedMap)
  params : Params
deriving DecidableEq, Repr

/-- The PID table: category label → weight pair, plus the table's own
parameter set. -/
structure PIDTable where
  weights : List (String × PIDEntry)
  params : Params
deriving DecidableEq, Repr

/-- Error taxonomy of the splitter: binning disagreement between input
maps, or a required category label absent from a dictionary (a `KeyError`
in the Python source). -/
inductive PIDError where
  | BinningMismatch
  | MissingCategory
deriving DecidableEq, Repr

/-- The returned dictionary `{'trck': …, 'cscd': …, 'params': …}`. -/
structure PIDOutput where
  trck : BinnedMap
  cscd : BinnedMap
  params : Params
deriving DecidableEq, Repr

/-- Python dictionary lookup on an association list of binned maps. -/
def lookupMap (ms : List (String × BinnedMap)) (f : String) : Option BinnedMap :=
  (ms.find? (fun p => p.1 == f)).map Prod.snd

/-- Python dictionary lookup on an association list of PID entries. -/
def lookupPid (ws : List (String × PIDEntry)) (f : String) : Option PIDEntry :=
  (ws.find? (fun p => p.1 == f)).map Prod.snd

/-- Python dictionary lookup on a parameter mapping. -/
def lookupParam (ps : Params) (k : String) : Option Int :=
  (ps.find? (fun p => p.1 == k)).map Prod.snd

/-- `np.zeros_like(m)`: a grid of zeros of the same shape as `m`. -/
def zerosLike (m : Grid) : Grid :=
  m.map (fun row => row.map (fun _ => (0 : ℚ)))

/-- numpy elementwise addition of two grids (`a += b` on same-shape arrays). -/
def mapAdd (a b : Grid) : Grid :=
  List.zipWith (List.zipWith (· + ·)) a b

/-- numpy `event_map * w`: scalar broadcast or elementwise product with a
same-shape weight grid. -/
def mapMulW (m : Grid) (w : Weight) : Grid :=
  match w with
  | .scalar c => m.map (fun row => row.map (fun x => x * c))
  | .grid g => List.zipWith (List.zipWith (· * ·)) m g

/-- Modelled from the spec: the parameter merge performed through
`get_params`/`add_params`/`report_params` of `pisa.utils.proc`, whose
source is not available.  Per the spec, the output parameter mapping
starts from the input `flavor_map_set` parameters and is overlaid with
the PID table's parameters, the PID table's entries taking precedence on
key collision. -/
def mergeParams (inp pidp : Params) : Params :=
  inp.filter (fun p => (lookupParam pidp p.1).isNone) ++ pidp

/-- The fixed category labels iterated by the loop in `get_pid_maps`. -/
def flavours : List String := ["nue_cc", "numu_cc", "nutau_cc", "nuall_nc"]

/-- Modelled from the spec: `get_binning` of `pisa.utils.utils` (also the
pre-flight `check_binning`), whose source is not available.  It determines
the common binning of the four category maps, failing with
`BinningMismatch` when any category's bin-edge arrays differ from the
others', and with `MissingCategory` when a category entry is absent. -/
def get_binning (re : RecoEvents) : Except PIDError (List ℚ × List ℚ) :=
  match lookupMap re.maps "nue_cc", lookupMap re.maps "numu_cc",
        lookupMap re.maps "nutau_cc", lookupMap re.maps "nuall_nc" with
  | some a, some b, some c, some d =>
    if a.ebins = b.ebins ∧ a.ebins = c.ebins ∧ a.ebins = d.ebins ∧
       a.czbins = b.czbins ∧ a.czbins = c.czbins ∧ a.czbins = d.czbins then
      .ok (a.ebins, a.czbins)
    else
      .error .BinningMismatch
  | _, _, _, _ => .error .MissingCategory

/-- `get_pid_maps(reco_events, pid_service)` of `pisa/pid/PID.py`:
determine the common binning, initialise zero `trck`/`cscd` maps shaped
like the `nue_cc` map, then for each of the four flavours accumulate
`event_map * weight` into the two output maps; the output carries the
common binning and the merged parameter mapping.  The loop over the
literal four-element flavour list is unrolled; a missing dictionary key
(a Python `KeyError`) is the `MissingCategory` error. -/
def get_pid_maps (re : RecoEvents) (pid : PIDTable) : Except PIDError PIDOutput :=
  match get_binning re with
  | .error e => .error e
  | .ok (ebins, czbins) =>
    match lookupMap re.maps "nue_cc", lookupMap re.maps "numu_cc",
          lookupMap re.maps "nutau_cc", lookupMap re.maps "nuall_nc",
          lookupPid pid.weights "nue_cc", lookupPid pid.weights "numu_cc",
          lookupPid pid.weights "nutau_cc", lookupPid pid.weights "nuall_nc" with
    | some me, some mm, some mt, some mn, some pe, some pm, some pt, some pn =>
      .ok
        { trck :=
            { map := mapAdd (mapAdd (mapAdd (mapAdd (zerosLike me.map)
                       (mapMulW me.map pe.trck)) (mapMulW mm.map pm.trck))
                       (mapMulW mt.map pt.trck)) (mapMulW mn.map pn.trck)
              ebins := ebins
              czbins := czbins }
          cscd :=
            { map := mapAdd (mapAdd (mapAdd (mapAdd (zerosLike me.map)
                       (mapMulW me.map pe.cscd)) (mapMulW mm.map pm.cscd))
                       (mapMulW mt.map pt.cscd)) (mapMulW mn.map pn.cscd)
              ebins := ebins
              czbins := czbins }
          params := mergeParams re.params pid.params }
    | _, _, _, _, _, _, _, _ => .error .MissingCategory

/-- The value of a grid at row `i`, column `j` (0 outside the grid). -/
def getCell (m : Grid) (i j : Nat) : ℚ :=
  (m.getD i []).getD j 0

/-- The effective value of a (possibly scalar) weight at a cell. -/
def wcell (w : Weight) (i j : Nat) : ℚ :=
  match w with
  | .scalar c => c
  | .grid g => getCell g i j

/-- A grid has `r` rows, each of `c` columns. -/
def shape (m : Grid) (r c : Nat) : Prop :=
  m.length = r ∧ ∀ row ∈ m, row.length = c

instance (m : Grid) (r c : Nat) : Decidable (shape m r c) := by
  unfold shape; infer_instance

/-- A weight is broadcast-compatible with shape `r × c`. -/
def wshape (w : Weight) (r c : Nat) : Prop :=
  match w with
  | .scalar _ => True
  | .grid g => shape g r c

instance (w : Weight) (r c : Nat) : Decidable (wshape w r c) := by
  unfold wshape; cases w <;> infer_instance

/-- Every entry of the grid is zero. -/
def allZero (m : Grid) : Prop :=
  ∀ row ∈ m, ∀ x ∈ row, x = (0 : ℚ)

instance (m : Grid) : Decidable (allZero m) := by
  unfold allZero; infer_instance

/-- Scaling a grid by a constant `k`, elementwise. -/
def mapScale (k : ℚ) (m : Grid) : Grid :=
  m.map (fun row => row.map (fun x => k * x))

/-- Scaling every category's event-rate map of a reco-events dictionary
by `k`, leaving bin edges and parameters unchanged. -/
def scaleReco (k : ℚ) (re : RecoEvents) : RecoEvents :=
  { re with
    maps := re.maps.map (fun p => (p.1, { p.2 with map := mapScale k p.2.map })) }

/-! ### Concrete inputs for the spec's scenarios -/

/-- The 2×2 all-ones event-rate map of the spec's concrete scenario. -/
def onesMap : Grid := [[1, 1], [1, 1]]

/-- The all-ones map with binning `ebins=[1,10,100]`, `czbins=[-1,0,1]`. -/
def exBins : BinnedMap := { map := onesMap, ebins := [1, 10, 100], czbins := [-1, 0, 1] }

/-- The reco-events input of the concrete scenario: all four categories
hold the same 2×2 all-ones map. -/
def exReco : RecoEvents :=
  { maps := [("nue_cc", exBins), ("numu_cc", exBins), ("nutau_cc", exBins), ("nuall_nc", exBins)]
    params := [] }

/-- The weight pair `(0.7, 0.3)` of the concrete scenario. -/
def exEntry : PIDEntry := { trck := .scalar (7/10), cscd := .scalar (3/10) }

/-- The PID table of the concrete scenario: every category gets the
scalar weights `0.7` / `0.3`. -/
def exPid : PIDTable :=
  { weights := [("nue_cc", exEntry), ("numu_cc", exEntry), ("nutau_cc", exEntry), ("nuall_nc", exEntry)]
    params := [] }

/-- The expected output of the concrete scenario: `trck` is 2.8 and `cscd`
is 1.2 in every cell, under the common binning. -/
def exOut : PIDOutput :=
  { trck := { map := [[14/5, 14/5], [14/5, 14/5]], ebins := [1, 10, 100], czbins := [-1, 0, 1] }
    cscd := { map := [[6/5, 6/5], [6/5, 6/5]], ebins := [1, 10, 100], czbins := [-1, 0, 1] }
    params := [] }

/-! ### Lookup lemmas -/

theorem lookupMap_cons (k : String) (bm : BinnedMap) (l : List (String × BinnedMap)) (f : String) :
    lookupMap ((k, bm) :: l) f = if k = f then some bm else lookupMap l f := by
  by_cases h : k = f <;> simp [lookupMap, List.find?_cons, h]

theorem lookupMap_nil (f : String) : lookupMap [] f = none := rfl

theorem lookupPid_cons (k : String) (w : PIDEntry) (l : List (String × PIDEntry)) (f : String) :
    lookupPid ((k, w) :: l) f = if k = f then some w else lookupPid l f := by
  by_cases h : k = f <;> simp [lookupPid, List.find?_cons, h]

theorem lookupPid_nil (f : String) : lookupPid [] f = none := rfl

theorem lookupParam_cons (k : String) (v : Int) (l : Params) (f : String) :
    lookupParam ((k, v) :: l) f = if k = f then some v else lookupParam l f := by
  by_cases h : k = f <;> simp [lookupParam, List.find?_cons, h]

theorem lookupParam_nil (f : String) : lookupParam [] f = none := rfl

/-! ### Cell-level lemmas -/

theorem getD_zipWith_mul :
    ∀ (l₁ l₂ : List ℚ) (j : Nat),
      (List.zipWith (· * ·) l₁ l₂).getD j 0 = l₁.getD j 0 * l₂.getD j 0
  | [], l₂, j => by simp
  | a :: t, [], j => by simp
  | a :: t, b :: s, 0 => by simp
  | a :: t, b :: s, j + 1 => by
    simpa using getD_zipWith_mul t s j

theorem getD_zipWith_add :
    ∀ (l₁ l₂ : List ℚ) (j : Nat), l₁.length = l₂.length →
      (List.zipWith (· + ·) l₁ l₂).getD j 0 = l₁.getD j 0 + l₂.getD j 0
  | [], [], j, _ => by simp
  | a :: t, b :: s, 0, _ => by simp
  | a :: t, b :: s, j + 1, h => by
    simpa using getD_zipWith_add t s j (by simpa using h)

theorem getCell_zipWith_mul (m g : Grid) (i j : Nat) :
    getCell (List.zipWith (List.zipWith (· * ·)) m g) i j = getCell m i j * getCell g i j := by
  induction m generalizing g i with
  | nil => simp [getCell]
  | cons r t ih =>
    cases g with
    | nil => simp [getCell]
    | cons s u =>
      cases i with
      | zero => simpa [getCell] using getD_zipWith_mul r s j
      | succ i => simpa [getCell] using ih u i

theorem getD_map_mul (c : ℚ) :
    ∀ (l : List ℚ) (j : Nat), (l.map (fun x => x * c)).getD j 0 = l.getD j 0 * c
  | [], j => by simp
  | a :: t, 0 => by simp
  | a :: t, j + 1 => by simpa using getD_map_mul c t j

theorem getD_map_scale (k : ℚ) :
    ∀ (l : List ℚ) (j : Nat), (l.map (fun x => k * x)).getD j 0 = k * l.getD j 0
  | [], j => by simp
  | a :: t, 0 => by simp
  | a :: t, j + 1 => by simpa using getD_map_scale k t j

theorem getD_map_zero :
    ∀ (l : List ℚ) (j : Nat), (l.map (fun _ => (0 : ℚ))).getD j 0 = 0
  | [], j => by simp
  | a :: t, 0 => by simp
  | a :: t, j + 1 => by simp [getD_map_zero t j]

theorem getCell_mapMulW (m : Grid) (w : Weight) (i j : Nat) :
    getCell (mapMulW m w) i j = getCell m i j * wcell w i j := by
  cases w with
  | scalar c =>
    simp only [mapMulW, wcell]
    induction m generalizing i with
    | nil => simp [getCell]
    | cons r t ih =>
      cases i with
      | zero => simpa [getCell] using getD_map_mul c r j
      | succ i => simpa [getCell] using ih i
  | grid g => simpa [mapMulW, wcell] using getCell_zipWith_mul m g i j

theorem getCell_zerosLike (m : Grid) (i j : Nat) :
    getCell (zerosLike m) i j = 0 := by
  induction m generalizing i with
  | nil => simp [zerosLike, getCell]
  | cons r t ih =>
    cases i with
    | zero => simp [zerosLike, getCell, getD_map_zero r j]
    | succ i => simpa [zerosLike, getCell] using ih i

theorem getCell_mapScale (k : ℚ) (m : Grid) (i j : Nat) :
    getCell (mapScale k m) i j = k * getCell m i j := by
  induction m generalizing i with
  | nil => simp [mapScale, getCell]
  | cons r t ih =>
    cases i with
    | zero => simpa [mapScale, getCell] using getD_map_scale k r j
    | succ i => simpa [mapScale, getCell] using ih i

theorem getCell_mapAdd :
    ∀ (a b : Grid), a.length = b.length →
      (∀ i : Nat, (a.getD i []).length = (b.getD i []).length) →
      ∀ (i j : Nat), getCell (mapAdd a b) i j = getCell a i j + getCell b i j
  | [], [], _, _, i, j => by simp [mapAdd, getCell]
  | ra :: ta, rb :: tb, hlen, hrow, 0, j => by
    simpa [mapAdd, getCell] using getD_zipWith_add ra rb j (by simpa using hrow 0)
  | ra :: ta, rb :: tb, hlen, hrow, i + 1, j => by
    simpa [mapAdd, getCell] using
      getCell_mapAdd ta tb (by simpa using hlen) (fun i => by simpa using hrow (i + 1)) i j

/-! ### Shape lemmas -/

theorem shape_length {m : Grid} {r c : Nat} (h : shape m r c) : m.length = r := h.1

theorem shape_getD_length :
    ∀ {m : Grid} {r c : Nat}, shape m r c → ∀ i : Nat,
      (m.getD i []).length = if i < r then c else 0
  | [], r, c, h, i => by
    have hr : r = 0 := by simpa using h.1.symm
    simp [hr]
  | row :: t, r, c, h, 0 => by
    have hr : r = t.length + 1 := by simpa using h.1.symm
    simp [hr, h.2 row (List.mem_cons_self row t)]
  | row :: t, r, c, h, i + 1 => by
    have hr : r = t.length + 1 := by simpa using h.1.symm
    have ht : shape t t.length c :=
      ⟨rfl, fun s hs => h.2 s (List.mem_cons_of_mem row hs)⟩
    have := shape_getD_length ht i
    simpa [hr, Nat.succ_lt_succ_iff] using this

theorem mem_zipWith_elim {α β γ : Type} {f : α → β → γ} :
    ∀ {l₁ : List α} {l₂ : List β} {x : γ}, x ∈ List.zipWith f l₁ l₂ →
      ∃ a ∈ l₁, ∃ b ∈ l₂, x = f a b
  | a :: t, b :: s, x, hx => by
    rcases List.mem_cons.mp (by simpa using hx) with h | h
    · exact ⟨a, List.mem_cons_self a t, b, List.mem_cons_self b s, h⟩
    · rcases mem_zipWith_elim h with ⟨p, hp, q, hq, rfl⟩
      exact ⟨p, List.mem_cons_of_mem a hp, q, List.mem_cons_of_mem b hq, rfl⟩

theorem shape_mapAdd {a b : Grid} {r c : Nat} (ha : shape a r c) (hb : shape b r c) :
    shape (mapAdd a b) r c := by
  constructor
  · simp [mapAdd, ha.1, hb.1]
  · intro row hrow
    rcases mem_zipWith_elim hrow with ⟨x, hx, y, hy, rfl⟩
    simp [ha.2 x hx, hb.2 y hy]

theorem shape_zerosLike {m : Grid} {r c : Nat} (h : shape m r c) :
    shape (zerosLike m) r c := by
  constructor
  · simp [zerosLike, h.1]
  · intro row hrow
    rcases List.mem_map.mp hrow with ⟨x, hx, rfl⟩
    simp [h.2 x hx]

theorem shape_mapMulW {m : Grid} {w : Weight} {r c : Nat}
    (h : shape m r c) (hw : wshape w r c) : shape (mapMulW m w) r c := by
  cases w with
  | scalar d =>
    constructor
    · simp [mapMulW, h.1]
    · intro row hrow
      rcases List.mem_map.mp hrow with ⟨x, hx, rfl⟩
      simp [h.2 x hx]
  | grid g =>
    constructor
    · simp [mapMulW, h.1, hw.1]
    · intro row hrow
      rcases mem_zipWith_elim hrow with ⟨x, hx, y, hy, rfl⟩
      simp [h.2 x hx, hw.2 y hy]

theorem getCell_mapAdd_shape {a b : Grid} {r c : Nat}
    (ha : shape a r c) (hb : shape b r c) (i j : Nat) :
    getCell (mapAdd a b) i j = getCell a i j + getCell b i j :=
  getCell_mapAdd a b (by rw [ha.1, hb.1])
    (fun i => by rw [shape_getD_length ha i, shape_getD_length hb i]) i j

theorem lookupParam_mergeParams :
    ∀ (inp pidp : Params) (k : String),
      lookupParam (mergeParams inp pidp) k =
        (lookupParam pidp k).or (lookupParam inp k)
  | [], pidp, k => by
    cases h : lookupParam pidp k <;> simp [mergeParams, h, lookupParam_nil, Option.or]
  | (a, v) :: t, pidp, k => by
    by_cases hak : a = k
    · subst hak
      cases h : lookupParam pidp a with
      | none =>
        simp [mergeParams, List.filter_cons, h, lookupParam_cons, Option.or]
      | some w =>
        have ih := lookupParam_mergeParams t pidp a
        simp [mergeParams, List.filter_cons, h, lookupParam_cons, Option.or] at ih ⊢
        simp [ih, h, Option.or]
    · have ih := lookupParam_mergeParams t pidp k
      simp only [mergeParams] at ih
      by_cases hfa : (lookupParam pidp a).isNone <;>
        simp [mergeParams, List.filter_cons, hfa, lookupParam_cons, hak, ih]

theorem lookupMap_scaleReco (k : ℚ) (re : RecoEvents) (f : String) :
    lookupMap (scaleReco k re).maps f =
      (lookupMap re.maps f).map (fun bm => { bm with map := mapScale k bm.map }) := by
  simp only [scaleReco, lookupMap, List.find?_map]
  have hp : ((fun p : String × BinnedMap => p.1 == f) ∘
      (fun p : String × BinnedMap => (p.1, { p.2 with map := mapScale k p.2.map }))) =
      (fun p : String × BinnedMap => p.1 == f) := rfl
  rw [hp]
  cases List.find? (fun p : String × BinnedMap => p.1 == f) re.maps <;> simp

/-- Evaluation of the splitter on the spec's concrete scenario, shared by
the concrete instantiations below. -/
theorem get_pid_maps_exEval : get_pid_maps exReco exPid = .ok exOut := by
  simp only [get_pid_maps, get_binning, exReco, exPid, exBins, exEntry, onesMap, exOut,
    lookupMap_cons, lookupPid_cons, lookupMap_nil, lookupPid_nil]
  simp [mapAdd, mapMulW, zerosLike, mergeParams, List.zipWith, List.map, List.filter]
  norm_num

/-! ### Claims -/

/-- C2: on the concrete input of four categories each holding a 2×2
all-ones event-rate map with `ebins=[1,10,100]`, `czbins=[-1,0,1]`, and a
PID table giving every category scalar `weight_track = 0.7`,
`weight_cascade = 0.3`, the splitter returns a `trck` map with value 2.8
in every cell and a `cscd` map with value 1.2 in every cell, under the
common binning. -/
theorem concrete_scenario_C2 : get_pid_maps exReco exPid = .ok exOut :=
  get_pid_maps_exEval

/-- C1: conservation — for every valid input whose four category maps and
(broadcast) weights share one shape, each cell of `trck` plus the same
cell of `cscd` equals the sum over the four categories of
`event_map[i,j] * (weight_track + weight_cascade)`. -/
theorem conservation_C1 (re : RecoEvents) (pid : PIDTable) (out : PIDOutput)
    (me mm mt mn : BinnedMap) (pe pm pt pn : PIDEntry) (r c : Nat)
    (hok : get_pid_maps re pid = .ok out)
    (hme : lookupMap re.maps "nue_cc" = some me)
    (hmm : lookupMap re.maps "numu_cc" = some mm)
    (hmt : lookupMap re.maps "nutau_cc" = some mt)
    (hmn : lookupMap re.maps "nuall_nc" = some mn)
    (hpe : lookupPid pid.weights "nue_cc" = some pe)
    (hpm : lookupPid pid.weights "numu_cc" = some pm)
    (hpt : lookupPid pid.weights "nutau_cc" = some pt)
    (hpn : lookupPid pid.weights "nuall_nc" = some pn)
    (hse : shape me.map r c) (hsm : shape mm.map r c)
    (hst : shape mt.map r c) (hsn : shape mn.map r c)
    (hwe1 : wshape pe.trck r c) (hwe2 : wshape pe.cscd r c)
    (hwm1 : wshape pm.trck r c) (hwm2 : wshape pm.cscd r c)
    (hwt1 : wshape pt.trck r c) (hwt2 : wshape pt.cscd r c)
    (hwn1 : wshape pn.trck r c) (hwn2 : wshape pn.cscd r c)
    (i j : Nat) :
    getCell out.trck.map i j + getCell out.cscd.map i j =
      getCell me.map i j * (wcell pe.trck i j + wcell pe.cscd i j) +
      getCell mm.map i j * (wcell pm.trck i j + wcell pm.cscd i j) +
      getCell mt.map i j * (wcell pt.trck i j + wcell pt.cscd i j) +
      getCell mn.map i j * (wcell pn.trck i j + wcell pn.cscd i j) := by
  unfold get_pid_maps get_binning at hok
  simp only [hme, hmm, hmt, hmn, hpe, hpm, hpt, hpn] at hok
  split at hok
  case h_1 => exact absurd hok (by simp)
  case h_2 =>
    rw [Except.ok.injEq] at hok
    subst hok
    have s0 : shape (zerosLike me.map) r c := shape_zerosLike hse
    have sa1 : shape (mapMulW me.map pe.trck) r c := shape_mapMulW hse hwe1
    have sa2 : shape (mapMulW mm.map pm.trck) r c := shape_mapMulW hsm hwm1
    have sa3 : shape (mapMulW mt.map pt.trck) r c := shape_mapMulW hst hwt1
    have sa4 : shape (mapMulW mn.map pn.trck) r c := shape_mapMulW hsn hwn1
    have sb1 : shape (mapMulW me.map pe.cscd) r c := shape_mapMulW hse hwe2
    have sb2 : shape (mapMulW mm.map pm.cscd) r c := shape_mapMulW hsm hwm2
    have sb3 : shape (mapMulW mt.map pt.cscd) r c := shape_mapMulW hst hwt2
    have sb4 : shape (mapMulW mn.map pn.cscd) r c := shape_mapMulW hsn hwn2
    have ta1 := shape_mapAdd s0 sa1
    have ta2 := shape_mapAdd ta1 sa2
    have ta3 := shape_mapAdd ta2 sa3
    have tb1 := shape_mapAdd s0 sb1
    have tb2 := shape_mapAdd tb1 sb2
    have tb3 := shape_mapAdd tb2 sb3
    rw [getCell_mapAdd_shape ta3 sa4 i j, getCell_mapAdd_shape ta2 sa3 i j,
        getCell_mapAdd_shape ta1 sa2 i j, getCell_mapAdd_shape s0 sa1 i j,
        getCell_mapAdd_shape tb3 sb4 i j, getCell_mapAdd_shape tb2 sb3 i j,
        getCell_mapAdd_shape tb1 sb2 i j, getCell_mapAdd_shape s0 sb1 i j,
        getCell_zerosLike, getCell_mapMulW, getCell_mapMulW, getCell_mapMulW, getCell_mapMulW,
        getCell_mapMulW, getCell_mapMulW, getCell_mapMulW, getCell_mapMulW]
    ring

/-- C1, instantiated at the concrete scenario, cell (0,0). -/
theorem conservation_C1_witness :
    getCell exOut.trck.map 0 0 + getCell exOut.cscd.map 0 0 =
      getCell exBins.map 0 0 * (wcell exEntry.trck 0 0 + wcell exEntry.cscd 0 0) +
      getCell exBins.map 0 0 * (wcell exEntry.trck 0 0 + wcell exEntry.cscd 0 0) +
      getCell exBins.map 0 0 * (wcell exEntry.trck 0 0 + wcell exEntry.cscd 0 0) +
      getCell exBins.map 0 0 * (wcell exEntry.trck 0 0 + wcell exEntry.cscd 0 0) :=
  conservation_C1 exReco exPid exOut exBins exBins exBins exBins
    exEntry exEntry exEntry exEntry 2 2
    get_pid_maps_exEval rfl rfl rfl rfl rfl rfl rfl rfl
    (by decide) (by decide) (by decide) (by decide)
    trivial trivial trivial trivial trivial trivial trivial trivial 0 0

/-- The concrete scenario with parameters attached: input params
`{"a": 1}`, PID-table params `{"a": 2, "b": 3}`. -/
def exRecoP : RecoEvents := { maps := exReco.maps, params := [("a", (1 : Int))] }

/-- The PID table of the parameter-merge scenario. -/
def exPidP : PIDTable :=
  { weights := exPid.weights, params := [("a", (2 : Int)), ("b", (3 : Int))] }

/-- Expected output of the parameter-merge scenario: the maps of the
concrete scenario with merged params `{"a": 2, "b": 3}`. -/
def exOutP : PIDOutput :=
  { trck := exOut.trck, cscd := exOut.cscd, params := [("a", (2 : Int)), ("b", (3 : Int))] }

/-- Evaluation of the splitter on the parameter-merge scenario. -/
theorem get_pid_maps_exEvalP : get_pid_maps exRecoP exPidP = .ok exOutP := by
  simp only [get_pid_maps, get_binning, exRecoP, exPidP, exReco, exPid, exBins, exEntry,
    onesMap, exOutP, exOut, lookupMap_cons, lookupPid_cons, lookupMap_nil, lookupPid_nil]
  simp [mapAdd, mapMulW, zerosLike, mergeParams, lookupParam_cons, lookupParam_nil,
    List.zipWith, List.map, List.filter]
  norm_num

/-- C3: for every successful invocation, the output `params` mapping is
the input parameters overlaid with the PID table's parameters, the PID
table's entries taking precedence on key collision. -/
theorem params_merge_C3 (re : RecoEvents) (pid : PIDTable) (out : PIDOutput)
    (hok : get_pid_maps re pid = .ok out) (key : String) :
    lookupParam out.params key =
      (lookupParam pid.params key).or (lookupParam re.params key) := by
  unfold get_pid_maps at hok
  split at hok
  case h_1 => exact absurd hok (by simp)
  case h_2 =>
    split at hok
    case h_2 => exact absurd hok (by simp)
    case h_1 =>
      rw [Except.ok.injEq] at hok
      subst hok
      exact lookupParam_mergeParams re.params pid.params key

/-- C3, instantiated: input params `{"a":1}` and PID params
`{"a":2,"b":3}` merge to `{"a":2,"b":3}`. -/
theorem params_merge_C3_witness :
    lookupParam exOutP.params "a" = some 2 ∧ lookupParam exOutP.params "b" = some 3 :=
  ⟨(params_merge_C3 exRecoP exPidP exOutP get_pid_maps_exEvalP "a").trans rfl,
   (params_merge_C3 exRecoP exPidP exOutP get_pid_maps_exEvalP "b").trans rfl⟩

/-- A map like `exBins` but with differing energy bin edges. -/
def exBinsMismatch : BinnedMap := { map := onesMap, ebins := [1, 2, 100], czbins := [-1, 0, 1] }

/-- A reco-events input whose `numu_cc` map carries different energy bin
edges than the other categories. -/
def exRecoMismatch : RecoEvents :=
  { maps := [("nue_cc", exBins), ("numu_cc", exBinsMismatch),
             ("nutau_cc", exBins), ("nuall_nc", exBins)]
    params := [] }

/-- C4: when the four category maps do not all share the same bin-edge
arrays, the invocation fails with `BinningMismatch` instead of returning
an output. -/
theorem binning_mismatch_C4 (re : RecoEvents) (pid : PIDTable)
    (me mm mt mn : BinnedMap)
    (hme : lookupMap re.maps "nue_cc" = some me)
    (hmm : lookupMap re.maps "numu_cc" = some mm)
    (hmt : lookupMap re.maps "nutau_cc" = some mt)
    (hmn : lookupMap re.maps "nuall_nc" = some mn)
    (hdiff : ¬ (me.ebins = mm.ebins ∧ me.ebins = mt.ebins ∧ me.ebins = mn.ebins ∧
                me.czbins = mm.czbins ∧ me.czbins = mt.czbins ∧ me.czbins = mn.czbins)) :
    get_pid_maps re pid = .error .BinningMismatch := by
  unfold get_pid_maps get_binning
  simp only [hme, hmm, hmt, hmn]
  rw [if_neg hdiff]

/-- C4, instantiated: two categories with differing `ebins` fail with
`BinningMismatch`. -/
theorem binning_mismatch_C4_witness :
    get_pid_maps exRecoMismatch exPid = .error .BinningMismatch :=
  binning_mismatch_C4 exRecoMismatch exPid exBins exBinsMismatch exBins exBins
    rfl rfl rfl rfl (by decide)

/-- A PID table with no category entries at all. -/
def emptyPid : PIDTable := { weights := [], params := [] }

/-- A successful binning determination means all four category maps are
present. -/
theorem get_binning_ok_lookups {re : RecoEvents} {bc : List ℚ × List ℚ}
    (h : get_binning re = .ok bc) :
    (∃ x, lookupMap re.maps "nue_cc" = some x) ∧ (∃ x, lookupMap re.maps "numu_cc" = some x) ∧
    (∃ x, lookupMap re.maps "nutau_cc" = some x) ∧ (∃ x, lookupMap re.maps "nuall_nc" = some x) := by
  unfold get_binning at h
  cases hA : lookupMap re.maps "nue_cc"
  · simp [hA] at h
  cases hB : lookupMap re.maps "numu_cc"
  · simp [hA, hB] at h
  cases hC : lookupMap re.maps "nutau_cc"
  · simp [hA, hB, hC] at h
  cases hD : lookupMap re.maps "nuall_nc"
  · simp [hA, hB, hC, hD] at h
  exact ⟨⟨_, rfl⟩, ⟨_, rfl⟩, ⟨_, rfl⟩, ⟨_, rfl⟩⟩

/-- C5 (amended): a missing category label in the event-rate input makes
the invocation fail with `MissingCategory`; a missing weight pair in the
PID table does so provided the binning determination succeeds — when the
event-rate maps also disagree on binning, the binning check runs first
and `BinningMismatch` is raised instead (see the counterexample). -/
theorem missing_category_C5 (re : RecoEvents) (pid : PIDTable)
    (h : (∃ f ∈ flavours, lookupMap re.maps f = none) ∨
         ((∃ bc, get_binning re = .ok bc) ∧ ∃ f ∈ flavours, lookupPid pid.weights f = none)) :
    get_pid_maps re pid = .error .MissingCategory := by
  rcases h with ⟨f, hf, hnone⟩ | ⟨⟨bc, hbc⟩, f, hf, hnone⟩
  · simp only [flavours, List.mem_cons, List.not_mem_nil, or_false] at hf
    unfold get_pid_maps get_binning
    rcases hf with rfl | rfl | rfl | rfl
    · simp [hnone]
    · cases hA : lookupMap re.maps "nue_cc" <;> simp [hA, hnone]
    · cases hA : lookupMap re.maps "nue_cc" <;>
        cases hB : lookupMap re.maps "numu_cc" <;> simp [hA, hB, hnone]
    · cases hA : lookupMap re.maps "nue_cc" <;>
        cases hB : lookupMap re.maps "numu_cc" <;>
        cases hC : lookupMap re.maps "nutau_cc" <;> simp [hA, hB, hC, hnone]
  · obtain ⟨⟨a, hA⟩, ⟨b, hB⟩, ⟨c, hC⟩, ⟨d, hD⟩⟩ := get_binning_ok_lookups hbc
    simp only [flavours, List.mem_cons, List.not_mem_nil, or_false] at hf
    unfold get_pid_maps
    rw [hbc]
    rcases hf with rfl | rfl | rfl | rfl
    · simp [hA, hB, hC, hD, hnone]
    · cases hP1 : lookupPid pid.weights "nue_cc" <;>
        simp [hA, hB, hC, hD, hP1, hnone]
    · cases hP1 : lookupPid pid.weights "nue_cc" <;>
        cases hP2 : lookupPid pid.weights "numu_cc" <;>
        simp [hA, hB, hC, hD, hP1, hP2, hnone]
    · cases hP1 : lookupPid pid.weights "nue_cc" <;>
        cases hP2 : lookupPid pid.weights "numu_cc" <;>
        cases hP3 : lookupPid pid.weights "nutau_cc" <;>
        simp [hA, hB, hC, hD, hP1, hP2, hP3, hnone]

/-- C5, instantiated: a PID table with no entries, on a well-binned
input, fails with `MissingCategory`. -/
theorem missing_category_C5_witness :
    get_pid_maps exReco emptyPid = .error .MissingCategory :=
  missing_category_C5 exReco emptyPid
    (Or.inr ⟨⟨([1, 10, 100], [-1, 0, 1]), rfl⟩, "nue_cc", by decide, rfl⟩)

/-- C5, counterexample to the unamended claim: when the PID table lacks
`nue_cc` but the event-rate maps also disagree on binning, the invocation
fails with `BinningMismatch`, not `MissingCategory`. -/
theorem missing_category_C5_cex :
    lookupPid emptyPid.weights "nue_cc" = none ∧
    get_pid_maps exRecoMismatch emptyPid ≠ .error .MissingCategory := by
  constructor
  · rfl
  · decide

/-- C6: on every successful invocation, the `ebins`/`czbins` arrays of
both output maps equal the bin-edge arrays of each input category map
(the common binning). -/
theorem binning_preserved_C6 (re : RecoEvents) (pid : PIDTable) (out : PIDOutput)
    (f : String) (bm : BinnedMap) (hf : f ∈ flavours)
    (hok : get_pid_maps re pid = .ok out)
    (hbm : lookupMap re.maps f = some bm) :
    out.trck.ebins = bm.ebins ∧ out.trck.czbins = bm.czbins ∧
    out.cscd.ebins = bm.ebins ∧ out.cscd.czbins = bm.czbins := by
  unfold get_pid_maps at hok
  cases hgb : get_binning re with
  | error e => rw [hgb] at hok; exact absurd hok (by simp)
  | ok bc =>
    rw [hgb] at hok
    obtain ⟨⟨a, hA⟩, ⟨b, hB⟩, ⟨c, hC⟩, ⟨d, hD⟩⟩ := get_binning_ok_lookups hgb
    cases bc with
    | mk eb cz =>
      simp only [hA, hB, hC, hD] at hok
      cases hP1 : lookupPid pid.weights "nue_cc"
      · simp [hP1] at hok
      cases hP2 : lookupPid pid.weights "numu_cc"
      · simp [hP1, hP2] at hok
      cases hP3 : lookupPid pid.weights "nutau_cc"
      · simp [hP1, hP2, hP3] at hok
      cases hP4 : lookupPid pid.weights "nuall_nc"
      · simp [hP1, hP2, hP3, hP4] at hok
      simp only [hP1, hP2, hP3, hP4] at hok
      rw [Except.ok.injEq] at hok
      subst hok
      unfold get_binning at hgb
      simp only [hA, hB, hC, hD] at hgb
      split at hgb
      case isTrue =>
        rename_i hcond
        rw [Except.ok.injEq, Prod.mk.injEq] at hgb
        obtain ⟨heb, hcz⟩ := hgb
        subst heb; subst hcz
        simp only [flavours, List.mem_cons, List.not_mem_nil, or_false] at hf
        rcases hf with rfl | rfl | rfl | rfl
        · rw [hA] at hbm; injection hbm with hbm; subst hbm
          exact ⟨rfl, rfl, rfl, rfl⟩
        · rw [hB] at hbm; injection hbm with hbm; subst hbm
          exact ⟨hcond.1, hcond.2.2.2.1, hcond.1, hcond.2.2.2.1⟩
        · rw [hC] at hbm; injection hbm with hbm; subst hbm
          exact ⟨hcond.2.1, hcond.2.2.2.2.1, hcond.2.1, hcond.2.2.2.2.1⟩
        · rw [hD] at hbm; injection hbm with hbm; subst hbm
          exact ⟨hcond.2.2.1, hcond.2.2.2.2.2, hcond.2.2.1, hcond.2.2.2.2.2⟩
      case isFalse => exact absurd hgb (by simp)

/-- C6, instantiated at the concrete scenario. -/
theorem binning_preserved_C6_witness :
    exOut.trck.ebins = exBins.ebins ∧ exOut.trck.czbins = exBins.czbins ∧
    exOut.cscd.ebins = exBins.ebins ∧ exOut.cscd.czbins = exBins.czbins :=
  binning_preserved_C6 exReco exPid exOut "nue_cc" exBins (by decide)
    get_pid_maps_exEval rfl

/-! ### Commutation of the elementwise operations with scaling -/

theorem zipWith_mul_map_scale (k : ℚ) :
    ∀ (a b : List ℚ), List.zipWith (· * ·) (a.map (fun x => k * x)) b =
      (List.zipWith (· * ·) a b).map (fun x => k * x)
  | [], b => by simp
  | x :: t, [] => by simp
  | x :: t, y :: s => by simp [zipWith_mul_map_scale k t s, mul_assoc]

theorem zipWith_add_map_scale (k : ℚ) :
    ∀ (a b : List ℚ),
      List.zipWith (fun x y => k * x + k * y) a b =
        (List.zipWith (· + ·) a b).map (fun x => k * x)
  | [], b => by simp
  | x :: t, [] => by simp
  | x :: t, y :: s => by simp [zipWith_add_map_scale k t s, mul_add]

theorem mapScale_zerosLike (k : ℚ) (m : Grid) :
    mapScale k (zerosLike m) = zerosLike m := by
  simp [mapScale, zerosLike, List.map_map]

theorem zerosLike_mapScale (k : ℚ) (m : Grid) :
    zerosLike (mapScale k m) = mapScale k (zerosLike m) := by
  rw [mapScale_zerosLike]
  simp [mapScale, zerosLike, List.map_map]

theorem mapMulW_mapScale (k : ℚ) (m : Grid) (w : Weight) :
    mapMulW (mapScale k m) w = mapScale k (mapMulW m w) := by
  cases w with
  | scalar c =>
    simp only [mapMulW, mapScale]
    induction m with
    | nil => simp
    | cons r t ih =>
      simp [List.map_cons] at ih ⊢
      exact ⟨fun a _ => mul_assoc k a c, ih⟩
  | grid g =>
    simp only [mapMulW, mapScale]
    induction m generalizing g with
    | nil => simp
    | cons r t ih =>
      cases g with
      | nil => simp
      | cons s u => simp [ih u, zipWith_mul_map_scale]

theorem mapAdd_mapScale (k : ℚ) :
    ∀ (a b : Grid), mapAdd (mapScale k a) (mapScale k b) = mapScale k (mapAdd a b)
  | [], b => by simp [mapAdd, mapScale]
  | r :: t, [] => by simp [mapAdd, mapScale]
  | r :: t, s :: u => by
    have ih := mapAdd_mapScale k t u
    simp only [mapAdd, mapScale] at ih ⊢
    simp [ih, zipWith_add_map_scale]

/-- C7: linearity — scaling every category's event-rate map by a constant
`k` scales every cell of both output maps by `k` (the invocation still
succeeds, on the same binning). -/
theorem linearity_C7 (re : RecoEvents) (pid : PIDTable) (out : PIDOutput) (k : ℚ)
    (hok : get_pid_maps re pid = .ok out) :
    ∃ out', get_pid_maps (scaleReco k re) pid = .ok out' ∧
      (∀ i j, getCell out'.trck.map i j = k * getCell out.trck.map i j) ∧
      (∀ i j, getCell out'.cscd.map i j = k * getCell out.cscd.map i j) := by
  unfold get_pid_maps at hok
  cases hgb : get_binning re with
  | error e => rw [hgb] at hok; exact absurd hok (by simp)
  | ok bc =>
    rw [hgb] at hok
    obtain ⟨⟨a, hA⟩, ⟨b, hB⟩, ⟨c, hC⟩, ⟨d, hD⟩⟩ := get_binning_ok_lookups hgb
    cases bc with
    | mk eb cz =>
      simp only [hA, hB, hC, hD] at hok
      cases hP1 : lookupPid pid.weights "nue_cc"
      · simp [hP1] at hok
      cases hP2 : lookupPid pid.weights "numu_cc"
      · simp [hP1, hP2] at hok
      cases hP3 : lookupPid pid.weights "nutau_cc"
      · simp [hP1, hP2, hP3] at hok
      cases hP4 : lookupPid pid.weights "nuall_nc"
      · simp [hP1, hP2, hP3, hP4] at hok
      rename_i pe pm pt pn
      simp only [hP1, hP2, hP3, hP4] at hok
      rw [Except.ok.injEq] at hok
      subst hok
      have hA' : lookupMap (scaleReco k re).maps "nue_cc" =
          some { a with map := mapScale k a.map } := by
        rw [lookupMap_scaleReco, hA]; rfl
      have hB' : lookupMap (scaleReco k re).maps "numu_cc" =
          some { b with map := mapScale k b.map } := by
        rw [lookupMap_scaleReco, hB]; rfl
      have hC' : lookupMap (scaleReco k re).maps "nutau_cc" =
          some { c with map := mapScale k c.map } := by
        rw [lookupMap_scaleReco, hC]; rfl
      have hD' : lookupMap (scaleReco k re).maps "nuall_nc" =
          some { d with map := mapScale k d.map } := by
        rw [lookupMap_scaleReco, hD]; rfl
      have hgb' : get_binning (scaleReco k re) = .ok (eb, cz) := by
        unfold get_binning at hgb ⊢
        simp only [hA, hB, hC, hD] at hgb
        simp only [hA', hB', hC', hD']
        exact hgb
      have hok' : get_pid_maps (scaleReco k re) pid = .ok
          { trck := { map := mapScale k (mapAdd (mapAdd (mapAdd (mapAdd (zerosLike a.map)
                        (mapMulW a.map pe.trck)) (mapMulW b.map pm.trck))
                        (mapMulW c.map pt.trck)) (mapMulW d.map pn.trck))
                      ebins := eb, czbins := cz }
            cscd := { map := mapScale k (mapAdd (mapAdd (mapAdd (mapAdd (zerosLike a.map)
                        (mapMulW a.map pe.cscd)) (mapMulW b.map pm.cscd))
                        (mapMulW c.map pt.cscd)) (mapMulW d.map pn.cscd))
                      ebins := eb, czbins := cz }
            params := mergeParams re.params pid.params } := by
        unfold get_pid_maps
        rw [hgb']
        simp only [hA', hB', hC', hD', hP1, hP2, hP3, hP4,
          zerosLike_mapScale, mapMulW_mapScale, mapAdd_mapScale]
        rfl
      refine ⟨_, hok', fun i j => ?_, fun i j => ?_⟩
      · simp only [getCell_mapScale]
      · simp only [getCell_mapScale]

/-- C7, instantiated: doubling the concrete scenario's inputs doubles
every output cell. -/
theorem linearity_C7_witness :
    ∃ out', get_pid_maps (scaleReco 2 exReco) exPid = .ok out' ∧
      (∀ i j, getCell out'.trck.map i j = 2 * getCell exOut.trck.map i j) ∧
      (∀ i j, getCell out'.cscd.map i j = 2 * getCell exOut.cscd.map i j) :=
  linearity_C7 exReco exPid exOut 2 get_pid_maps_exEval

/-! ### Zero inputs -/

theorem allZero_zerosLike (m : Grid) : allZero (zerosLike m) := by
  intro row hrow
  rcases List.mem_map.mp hrow with ⟨x, hx, rfl⟩
  intro y hy
  rcases List.mem_map.mp hy with ⟨z, hz, rfl⟩
  rfl

theorem allZero_mapMulW {m : Grid} (h : allZero m) (w : Weight) :
    allZero (mapMulW m w) := by
  cases w with
  | scalar c =>
    intro row hrow
    rcases List.mem_map.mp hrow with ⟨x, hx, rfl⟩
    intro y hy
    rcases List.mem_map.mp hy with ⟨z, hz, rfl⟩
    rw [h x hx z hz, zero_mul]
  | grid g =>
    intro row hrow
    rcases mem_zipWith_elim hrow with ⟨x, hx, y, hy, rfl⟩
    intro e he
    rcases mem_zipWith_elim he with ⟨p, hp, q, hq, rfl⟩
    rw [h x hx p hp, zero_mul]

theorem allZero_mapAdd {a b : Grid} (ha : allZero a) (hb : allZero b) :
    allZero (mapAdd a b) := by
  intro row hrow
  rcases mem_zipWith_elim hrow with ⟨x, hx, y, hy, rfl⟩
  intro e he
  rcases mem_zipWith_elim he with ⟨p, hp, q, hq, rfl⟩
  rw [ha x hx p hp, hb y hy q hq, add_zero]

/-- C8: if every category's input event-rate map is all-zero, then for
every PID table the output `trck` and `cscd` maps are all-zero. -/
theorem zero_input_C8 (re : RecoEvents) (pid : PIDTable) (out : PIDOutput)
    (hok : get_pid_maps re pid = .ok out)
    (hz : ∀ f ∈ flavours, ∀ bm, lookupMap re.maps f = some bm → allZero bm.map) :
    allZero out.trck.map ∧ allZero out.cscd.map := by
  unfold get_pid_maps at hok
  cases hgb : get_binning re with
  | error e => rw [hgb] at hok; exact absurd hok (by simp)
  | ok bc =>
    rw [hgb] at hok
    obtain ⟨⟨a, hA⟩, ⟨b, hB⟩, ⟨c, hC⟩, ⟨d, hD⟩⟩ := get_binning_ok_lookups hgb
    cases bc with
    | mk eb cz =>
      simp only [hA, hB, hC, hD] at hok
      cases hP1 : lookupPid pid.weights "nue_cc"
      · simp [hP1] at hok
      cases hP2 : lookupPid pid.weights "numu_cc"
      · simp [hP1, hP2] at hok
      cases hP3 : lookupPid pid.weights "nutau_cc"
      · simp [hP1, hP2, hP3] at hok
      cases hP4 : lookupPid pid.weights "nuall_nc"
      · simp [hP1, hP2, hP3, hP4] at hok
      rename_i pe pm pt pn
      simp only [hP1, hP2, hP3, hP4] at hok
      rw [Except.ok.injEq] at hok
      subst hok
      have hza : allZero a.map := hz "nue_cc" (by decide) a hA
      have hzb : allZero b.map := hz "numu_cc" (by decide) b hB
      have hzc : allZero c.map := hz "nutau_cc" (by decide) c hC
      have hzd : allZero d.map := hz "nuall_nc" (by decide) d hD
      exact ⟨allZero_mapAdd (allZero_mapAdd (allZero_mapAdd (allZero_mapAdd
              (allZero_zerosLike a.map) (allZero_mapMulW hza pe.trck))
              (allZero_mapMulW hzb pm.trck)) (allZero_mapMulW hzc pt.trck))
              (allZero_mapMulW hzd pn.trck),
            allZero_mapAdd (allZero_mapAdd (allZero_mapAdd (allZero_mapAdd
              (allZero_zerosLike a.map) (allZero_mapMulW hza pe.cscd))
              (allZero_mapMulW hzb pm.cscd)) (allZero_mapMulW hzc pt.cscd))
              (allZero_mapMulW hzd pn.cscd)⟩

/-- An all-zero 2×2 map under the scenario's binning. -/
def zeroBins : BinnedMap :=
  { map := [[0, 0], [0, 0]], ebins := [1, 10, 100], czbins := [-1, 0, 1] }

/-- A reco-events input whose four category maps are all-zero. -/
def zeroReco : RecoEvents :=
  { maps := [("nue_cc", zeroBins), ("numu_cc", zeroBins),
             ("nutau_cc", zeroBins), ("nuall_nc", zeroBins)]
    params := [] }

/-- Expected output on the all-zero input: all-zero maps. -/
def zeroOut : PIDOutput :=
  { trck := zeroBins, cscd := zeroBins, params := [] }

/-- Evaluation of the splitter on the all-zero input. -/
theorem get_pid_maps_zeroEval : get_pid_maps zeroReco exPid = .ok zeroOut := by
  simp only [get_pid_maps, get_binning, zeroReco, zeroBins, exPid, exEntry, zeroOut,
    lookupMap_cons, lookupPid_cons, lookupMap_nil, lookupPid_nil]
  simp [mapAdd, mapMulW, zerosLike, mergeParams, List.zipWith, List.map, List.filter]

/-- C8, instantiated at the all-zero input. -/
theorem zero_input_C8_witness : allZero zeroOut.trck.map ∧ allZero zeroOut.cscd.map :=
  zero_input_C8 zeroReco exPid zeroOut get_pid_maps_zeroEval
    (by
      intro f hf bm hbm
      simp only [flavours, List.mem_cons, List.not_mem_nil, or_false] at hf
      rcases hf with rfl | rfl | rfl | rfl <;>
        · injection (id hbm : some zeroBins = some bm) with h
          exact h ▸ (by decide : allZero zeroBins.map))

/-- C10: entries of the event-rate dictionary under keys other than the
four fixed category labels are ignored — adding such an entry leaves the
result unchanged (the loop only reads the four fixed labels). -/
theorem extra_categories_C10 (re : RecoEvents) (pid : PIDTable) (k : String) (bm : BinnedMap)
    (hk : k ∉ flavours) :
    get_pid_maps { re with maps := (k, bm) :: re.maps } pid = get_pid_maps re pid := by
  simp only [flavours, List.mem_cons, List.not_mem_nil, or_false, not_or] at hk
  obtain ⟨h1, h2, h3, h4⟩ := hk
  unfold get_pid_maps get_binning
  simp only [lookupMap_cons, if_neg h1, if_neg h2, if_neg h3, if_neg h4]

/-- C10, instantiated: an extra `"extra"` category added to the concrete
scenario leaves the result unchanged. -/
theorem extra_categories_C10_witness :
    get_pid_maps { exReco with maps := ("extra", exBins) :: exReco.maps } exPid =
      get_pid_maps exReco exPid :=
  extra_categories_C10 exReco exPid "extra" exBins (by decide)

end Pisa
